import Mathlib

/-!
Shallow embedding of the file organization engine of
src/file_organizer_standalone.py (class FileOrganizer): the categorizer
get_file_category, the destination resolver get_destination_path, the
duplicate handler handle_duplicate, the readiness detector _is_file_ready and
the orchestrator organize_file.

Modelling conventions:
* A filesystem path is its list of components (FPath); pathlib's name is the
  last component and parent drops it, and path equality is component
  equality.
* The filesystem is a snapshot FS of the existing regular files and the
  existing directories.
* The float arithmetic of _is_file_ready only ever adds the literal 0.5 and
  compares against 2 and 30; every value reached is an exact binary fraction
  below 2 to the 53, so rational arithmetic models the Python floats exactly.
* The readiness detector observes the watched file through obs : Nat to
  Option Nat: obs 0 is the initial existence check, obs at i+1 is the stat
  call of poll i, and none models FileNotFoundError.
* shutil.move may raise; the flag moveOk selects whether it does, and
  organize_body returns Except so that the surrounding try/except of
  organize_file is explicit: an error value carries the message and the
  filesystem at the moment of the raise.
-/

abbrev FPath := List String

/-- pathlib name of a path: its last component. -/
def fname (p : FPath) : String := p.getLastD ""

/-- pathlib parent of a path: all components but the last. -/
def parentOf (p : FPath) : FPath := p.dropLast

/-- Index of the last dot character in a list of characters, if any. -/
def lastDotIdx (l : List Char) : Option Nat :=
  (l.reverse.findIdx? (fun c => c = '.')).map (fun k => l.length - 1 - k)

/-- Python Path.stem and Path.suffix of a file name: the suffix is the part
from the last dot on, provided that dot is neither the first nor the last
character of the name; otherwise the suffix is empty and the stem is the
whole name. -/
def pySplitName (nm : String) : String × String :=
  match lastDotIdx nm.data with
  | some i =>
    if 0 < i ∧ i + 1 < nm.data.length then
      (String.mk (nm.data.take i), String.mk (nm.data.drop i))
    else (nm, "")
  | none => (nm, "")

/-- Python str.lower, character by character. -/
def pyLower (s : String) : String := String.mk (s.data.map Char.toLower)

/-- Python str.startswith on the character lists of the two strings. -/
def pyStartsWith (s pre : String) : Bool :=
  decide (s.data.take pre.data.length = pre.data)

/-- Python str.endswith on the character lists of the two strings. -/
def pyEndsWith (s suf : String) : Bool :=
  decide (s.data.reverse.take suf.data.length = suf.data.reverse)

/-- The extension extracted by get_file_category: the suffix of the name,
lower-cased, with the leading dots stripped. -/
def pyExt (nm : String) : String :=
  String.mk ((pyLower (pySplitName nm).2).data.dropWhile (fun c => c = '.'))

/-- Decimal digits of n, most significant first, prepended to acc; models the
rendering of the integer counter inside the new file name built by
handle_duplicate.  The structural fuel always exceeds the number of digits,
as proved below. -/
def natStrAux : Nat → Nat → List Char → List Char
  | 0, _, acc => acc
  | fuel+1, n, acc =>
    if n < 10 then Char.ofNat (48 + n) :: acc
    else natStrAux fuel (n / 10) (Char.ofNat (48 + n % 10) :: acc)

/-- Decimal rendering of a natural number, as Python str of an int. -/
def natStr (n : Nat) : String := String.mk (natStrAux (n + 1) n [])

/-- One category entry of the configuration.  The enabled field holds the
value of info.get with default True, extensions the value of info.get with
default the empty list, and folder_path is none when the configured value is
falsy, that is missing or the empty string. -/
structure CategoryInfo where
  folder_path : Option FPath
  enabled : Bool
  extensions : List String
deriving DecidableEq

/-- The configuration consumed by the engine.  downloads_folder holds the
value of config.get with its home Downloads default already applied;
handle_duplicates is none when the key is missing; categories is the ordered
dict of category name to category entry. -/
structure Config where
  downloads_folder : FPath
  handle_duplicates : Option String
  categories : List (String × CategoryInfo)
deriving DecidableEq

/-- Snapshot of the filesystem: the existing regular files and the existing
directories. -/
structure FS where
  files : List FPath
  dirs : List FPath
deriving DecidableEq

/-- Result of one orchestrator run, as in the specification data model. -/
inductive MoveOutcome where
  | moved (src dst : FPath) (category : String)
  | skipped (p : FPath) (reason : String)
  | failed (p : FPath) (err : String)
deriving DecidableEq

/-- pathlib exists: the path is a regular file or a directory. -/
def FS.existsP (fs : FS) (p : FPath) : Prop := p ∈ fs.files ∨ p ∈ fs.dirs

instance (fs : FS) (p : FPath) : Decidable (fs.existsP p) := by
  unfold FS.existsP; infer_instance

/-- pathlib is_dir. -/
def FS.isDirP (fs : FS) (p : FPath) : Prop := p ∈ fs.dirs

instance (fs : FS) (p : FPath) : Decidable (fs.isDirP p) := by
  unfold FS.isDirP; infer_instance

/-- mkdir with parents and exist_ok: the directory is recorded if absent.
Creation of the intermediate ancestor directories is not modelled; no claim
depends on it. -/
def FS.mkdirp (fs : FS) (d : FPath) : FS :=
  ⟨fs.files, if d ∈ fs.dirs then fs.dirs else d :: fs.dirs⟩

/-- shutil.move: the source file disappears and the destination appears.
Paths on a real filesystem are unique, so every record of the source is
removed. -/
def FS.move (fs : FS) (src dst : FPath) : FS :=
  ⟨dst :: fs.files.filter (fun q => q ≠ src), fs.dirs⟩

/-- The loop of get_file_category: the name of the first enabled category
whose extension list holds the extension. -/
def firstMatch (ext : String) : List (String × CategoryInfo) → Option String
  | [] => none
  | ci :: rest =>
    if ci.2.enabled = true ∧ ext ∈ ci.2.extensions then some ci.1
    else firstMatch ext rest

/-- FileOrganizer.get_file_category. -/
def get_file_category (cfg : Config) (p : FPath) : String :=
  (firstMatch (pyExt (fname p)) cfg.categories).getD "Others"

/-- The loop of the reference categorizer, following the words of the
specification: iterate the rules in their stored order and return the name of
the first enabled rule whose extension set contains the extension. -/
def specRuleScan (ext : String) : List (String × CategoryInfo) → Option String
  | [] => none
  | r :: rs =>
    if r.2.enabled = true ∧ ext ∈ r.2.extensions then some r.1
    else specRuleScan ext rs

/-- Reference categorizer, following the words of the specification: if no
enabled rule matches, or the file has no extension, the reserved category
Others is returned. -/
def classifySpec (cfg : Config) (p : FPath) : String :=
  let ext := pyExt (fname p)
  if ext = "" then "Others"
  else match specRuleScan ext cfg.categories with
    | some nm => nm
    | none => "Others"

/-- Lookup in the ordered category table: Python membership test followed by
access in the categories dict. -/
def findCat (cat : String) : List (String × CategoryInfo) → Option CategoryInfo
  | [] => none
  | ci :: rest => if ci.1 = cat then some ci.2 else findCat cat rest

/-- FileOrganizer.get_destination_path: a configured category with a truthy
folder_path resolves there; a configured category with a falsy folder_path
yields no destination; a category absent from the table falls back to the
Others folder under the downloads folder.  Every resolved folder is created
if missing, the Others fallback twice as in the source. -/
def get_destination_path (cfg : Config) (fs : FS) (p : FPath) (cat : String) :
    Option FPath × FS :=
  match findCat cat cfg.categories with
  | some info =>
    match info.folder_path with
    | some f => (some (f ++ [fname p]), fs.mkdirp f)
    | none => (none, fs)
  | none =>
    (some ((cfg.downloads_folder ++ ["Others"]) ++ [fname p]),
      (fs.mkdirp (cfg.downloads_folder ++ ["Others"])).mkdirp
        (cfg.downloads_folder ++ ["Others"]))

/-- Candidate number k of the rename policy: the stem of the original
destination name, an underscore, the decimal counter, then the suffix, inside
the parent folder of the original destination. -/
def dupCandidate (dest : FPath) (k : Nat) : FPath :=
  parentOf dest ++
    [(pySplitName (fname dest)).1 ++ "_" ++ natStr k ++ (pySplitName (fname dest)).2]

/-- Fuel that provably suffices for the rename loop on a finite filesystem. -/
def renameFuel (fs : FS) : Nat := fs.files.length + fs.dirs.length + 2

/-- The while loop of the rename branch of handle_duplicate.  The loop checks
the current candidate, and while it exists builds the next candidate from the
counter; none models running out of fuel and is proved unreachable for the
fuel renameFuel. -/
def renameWhile (fs : FS) (orig : FPath) : Nat → FPath → Nat → Option FPath
  | 0, _, _ => none
  | fuel+1, cur, k =>
    if fs.existsP cur then renameWhile fs orig fuel (dupCandidate orig k) (k+1)
    else some cur

/-- FileOrganizer.handle_duplicate. -/
def handle_duplicate (cfg : Config) (fs : FS) (src dest : FPath) : Option FPath :=
  if ¬ fs.existsP dest then some dest
  else
    let m := cfg.handle_duplicates.getD "rename"
    if m = "skip" then none
    else if m = "overwrite" then some dest
    else renameWhile fs dest (renameFuel fs) dest 1

/-- The poll loop of FileOrganizer._is_file_ready.  The state is the poll
index i, where poll i reads obs at i+1, the previously observed size, -1
before the first poll, the stability time accumulated so far and the total
wait time.  The result is the index of the poll at which the file was judged
ready, or none when the loop returned False. -/
def readyLoop (obs : Nat → Option Nat) (period interval maxWait : ℚ) :
    Nat → Nat → Int → ℚ → ℚ → Option Nat
  | 0, _, _, _, _ => none
  | fuel+1, i, last, stable, total =>
    if total < maxWait then
      match obs (i+1) with
      | none => none
      | some sz =>
        if (sz : Int) = last then
          (if period ≤ stable + interval then some i
           else readyLoop obs period interval maxWait fuel (i+1) last
             (stable + interval) (total + interval))
        else
          readyLoop obs period interval maxWait fuel (i+1) (sz : Int) 0
            (total + interval)
    else none

/-- FileOrganizer._is_file_ready with its default parameters, returning the
index of the successful poll; the fuel 61 is enough for the sixty polls of
the thirty second window, since the guard on the total wait time stops the
loop first. -/
def readyIdx (obs : Nat → Option Nat) : Option Nat :=
  if (obs 0).isSome then readyLoop obs 2 (1/2) 30 61 0 (-1) 0 0 else none

/-- FileOrganizer._is_file_ready with its default parameters. -/
def is_file_ready (obs : Nat → Option Nat) : Bool :=
  (readyIdx obs).isSome

/-- The size recorded in the variable last_size before poll i runs. -/
def lastBefore (obs : Nat → Option Nat) : Nat → Int
  | 0 => -1
  | i+1 => (((obs (i+1)).getD 0 : Nat) : Int)

/-- The value of stable_time before poll i runs, under the default
parameters: reset to zero whenever the observed size changes from the
previous poll, incremented by the poll interval otherwise. -/
def stableBefore (obs : Nat → Option Nat) : Nat → ℚ
  | 0 => 0
  | i+1 =>
    if lastBefore obs (i+1) = lastBefore obs i then stableBefore obs i + 1/2
    else 0

/-- The body of FileOrganizer.organize_file inside its try block, with the
result of the readiness check passed in as a boolean. -/
def organize_body (cfg : Config) (fs : FS) (ready : Bool)
    (moveOk : Bool) (p : FPath) : Except (String × FS) (MoveOutcome × FS) :=
  if ¬ fs.existsP p then .ok (.skipped p "file not found", fs)
  else if pyStartsWith (fname p) "." = true ∨ pyEndsWith (fname p) ".tmp" = true
      ∨ fs.isDirP p then
    .ok (.skipped p "hidden, temporary or directory", fs)
  else if ¬ (parentOf p = cfg.downloads_folder) then
    .ok (.skipped p "not in the downloads folder", fs)
  else if ready = false then .ok (.skipped p "not ready", fs)
  else
    let category := get_file_category cfg p
    match get_destination_path cfg fs p category with
    | (none, fs1) => .ok (.skipped p "no destination folder", fs1)
    | (some dest, fs1) =>
      if parentOf p = parentOf dest then .ok (.skipped p "already organized", fs1)
      else
        match handle_duplicate cfg fs1 p dest with
        | none => .ok (.skipped p "duplicate skipped", fs1)
        | some finalDest =>
          if moveOk then .ok (.moved p finalDest category, fs1.move p finalDest)
          else .error ("move error", fs1)

/-- FileOrganizer.organize_file: the readiness check is run on the
observation stream and the surrounding try/except converts any raised error
into a failed outcome, so the function is total. -/
def organize_file (cfg : Config) (fs : FS) (obs : Nat → Option Nat)
    (moveOk : Bool) (p : FPath) : MoveOutcome × FS :=
  match organize_body cfg fs (is_file_ready obs) moveOk p with
  | .ok r => r
  | .error es => (.failed p es.1, es.2)

/-- A concrete Images category used by the witnesses. -/
def imgInfo : CategoryInfo := ⟨some ["dl", "Images"], true, ["jpg"]⟩

/-- A concrete configuration used by the witnesses. -/
def cfgImages : Config := ⟨["dl"], some "rename", [("Images", imgInfo)]⟩

/-- A configuration whose only rule lists the empty extension. -/
def c2CexCfg : Config := ⟨["dl"], some "rename", [("X", ⟨some ["dl", "X"], true, [""]⟩)]⟩

/-- A configuration whose only rule listing the empty extension is disabled:
an extensionless file still falls back to Others here. -/
def c2DisCfg : Config :=
  ⟨["dl"], some "rename", [("X", ⟨some ["dl", "X"], false, [""]⟩), ("Images", imgInfo)]⟩

/-- A configuration that explicitly configures the reserved category Others
with a falsy folder_path. -/
def c6CexCfg : Config := ⟨["dl"], some "rename", [("Others", ⟨none, true, []⟩)]⟩

/-- A configuration with a configured category lacking a folder. -/
def c6GapCfg : Config := ⟨["dl"], some "rename", [("Docs", ⟨none, true, ["jpg"]⟩)]⟩

/-- One photo in the downloads folder. -/
def fsPhoto : FS := ⟨[["dl", "photo.jpg"]], []⟩

/-- A destination folder already holding photo.jpg and photo_1.jpg. -/
def fsDup : FS := ⟨[["d", "photo.jpg"], ["d", "photo_1.jpg"]], []⟩

/-- Observations of a file whose size never changes: ready after four polls. -/
def obsStable : Nat → Option Nat := fun _ => some 5

/-- A configuration with the skip duplicate policy. -/
def cfgSkip : Config := ⟨["dl"], some "skip", [("Images", imgInfo)]⟩

/-- A configuration with the overwrite duplicate policy. -/
def cfgOver : Config := ⟨["dl"], some "overwrite", [("Images", imgInfo)]⟩

/-- A configuration with no handle_duplicates key at all. -/
def cfgNoPolicy : Config := ⟨["dl"], none, [("Images", imgInfo)]⟩

/-- The filesystem after the photo has been moved into the Images folder. -/
def fsMoved : FS := ⟨[["dl", "Images", "photo.jpg"]], [["dl", "Images"]]⟩

/-- A photo sitting in a subfolder of the downloads folder. -/
def fsSub : FS := ⟨[["dl", "sub", "photo.jpg"]], [["dl", "sub"]]⟩

/-- The filesystem state at the moment a move on fsPhoto raises: the Images
folder has been created but the photo has not moved. -/
def fsErr : FS := ⟨[["dl", "photo.jpg"]], [["dl", "Images"]]⟩

/-- Numeric value of a decimal digit character, used to read the rendered
counter back. -/
def digitVal (c : Char) : Nat := c.toNat - 48

/-- Value of a list of decimal digit characters, most significant first. -/
def digitsVal (l : List Char) : Nat := l.foldl (fun a c => a * 10 + digitVal c) 0

/-! ### Decimal rendering: the counter embeds injectively into file names -/

theorem natStrAux_append (fuel : Nat) : ∀ n acc, n < fuel →
    natStrAux fuel n acc = natStrAux fuel n [] ++ acc := by
  induction fuel with
  | zero => intro n acc h; omega
  | succ f ih =>
    intro n acc h
    by_cases h10 : n < 10
    · simp [natStrAux, h10]
    · have hdiv : n / 10 < f := by
        have h1 : n / 10 < n := Nat.div_lt_self (by omega) (by omega)
        omega
      simp only [natStrAux, if_neg h10]
      rw [ih _ _ hdiv, ih _ (Char.ofNat (48 + n % 10) :: []) hdiv]
      simp

theorem natStrAux_fuel (fuel : Nat) : ∀ fuel' n, n < fuel → n < fuel' →
    natStrAux fuel n [] = natStrAux fuel' n [] := by
  induction fuel with
  | zero => intro fuel' n h; omega
  | succ f ih =>
    intro fuel' n h h'
    match fuel' with
    | 0 => omega
    | f' + 1 =>
      by_cases h10 : n < 10
      · simp [natStrAux, h10]
      · have hdiv : n / 10 < n := Nat.div_lt_self (by omega) (by omega)
        simp only [natStrAux, if_neg h10]
        rw [natStrAux_append f _ _ (by omega), natStrAux_append f' _ _ (by omega),
          ih f' (n / 10) (by omega) (by omega)]

theorem digitVal_ofNat : ∀ d, d < 10 → digitVal (Char.ofNat (48 + d)) = d := by decide

theorem digitsVal_append_digit (l : List Char) (c : Char) :
    digitsVal (l ++ [c]) = digitsVal l * 10 + digitVal c := by
  simp [digitsVal, List.foldl_append]

theorem digitsVal_natStr (n : Nat) : digitsVal (natStr n).data = n := by
  induction n using Nat.strong_induction_on with
  | _ n ih =>
    show digitsVal (natStrAux (n + 1) n []) = n
    by_cases h10 : n < 10
    · simp only [natStrAux, if_pos h10]
      simp [digitsVal, digitVal_ofNat n h10]
    · have hdiv : n / 10 < n := Nat.div_lt_self (by omega) (by omega)
      simp only [natStrAux, if_neg h10]
      rw [natStrAux_append n _ _ (by omega),
        natStrAux_fuel n (n / 10 + 1) _ (by omega) (by omega)]
      rw [digitsVal_append_digit]
      have hval : digitsVal (natStrAux (n / 10 + 1) (n / 10) []) = n / 10 := ih _ hdiv
      rw [hval, digitVal_ofNat _ (by omega)]
      omega

theorem natStr_data_inj : ∀ m n : Nat, (natStr m).data = (natStr n).data → m = n := by
  intro m n hd
  have hm := digitsVal_natStr m
  rw [hd, digitsVal_natStr n] at hm
  omega

/-! ### Duplicate handling: rename candidates and the rename loop -/

theorem dupCandidate_inj (dest : FPath) : ∀ j k : Nat,
    dupCandidate dest j = dupCandidate dest k → j = k := by
  intro j k h
  unfold dupCandidate at h
  have h1 := List.append_cancel_left h
  have h2 : (pySplitName (fname dest)).1 ++ "_" ++ natStr j ++ (pySplitName (fname dest)).2
      = (pySplitName (fname dest)).1 ++ "_" ++ natStr k ++ (pySplitName (fname dest)).2 := by
    simpa using h1
  have h3 : (natStr j).data = (natStr k).data := by
    have hdata := congrArg String.data h2
    simp only [String.data_append] at hdata
    have h4 := List.append_cancel_right hdata
    exact List.append_cancel_left h4
  exact natStr_data_inj j k h3

theorem exists_free_candidate (fs : FS) (dest : FPath) :
    ∃ k, 1 ≤ k ∧ k ≤ fs.files.length + fs.dirs.length + 1 ∧
      ¬ fs.existsP (dupCandidate dest k) := by
  by_contra hall
  push_neg at hall
  set N := fs.files.length + fs.dirs.length with hN
  have hmem : ∀ k, 1 ≤ k → k ≤ N + 1 →
      dupCandidate dest k ∈ fs.files ++ fs.dirs := by
    intro k h1 h2
    have := hall k h1 h2
    rcases this with hf | hd
    · exact List.mem_append.mpr (Or.inl hf)
    · exact List.mem_append.mpr (Or.inr hd)
  have hsub : (Finset.Icc 1 (N + 1)).image (dupCandidate dest) ⊆
      (fs.files ++ fs.dirs).toFinset := by
    intro x hx
    rcases Finset.mem_image.mp hx with ⟨k, hk, rfl⟩
    rcases Finset.mem_Icc.mp hk with ⟨hk1, hk2⟩
    exact List.mem_toFinset.mpr (hmem k hk1 hk2)
  have hcard : ((Finset.Icc 1 (N + 1)).image (dupCandidate dest)).card = N + 1 := by
    rw [Finset.card_image_of_injOn (fun a _ b _ hab => dupCandidate_inj dest a b hab)]
    rw [Nat.card_Icc]
    omega
  have hle := Finset.card_le_card hsub
  rw [hcard] at hle
  have hlen : (fs.files ++ fs.dirs).toFinset.card ≤ N := by
    calc (fs.files ++ fs.dirs).toFinset.card ≤ (fs.files ++ fs.dirs).length :=
          List.toFinset_card_le _
      _ = N := by simp [hN]
  omega

theorem renameWhile_reaches (fs : FS) (dest : FPath) (K : Nat) (hK1 : 1 ≤ K)
    (hfree : ¬ fs.existsP (dupCandidate dest K))
    (hmin : ∀ j, 1 ≤ j → j < K → fs.existsP (dupCandidate dest j)) :
    ∀ fuel m, 1 ≤ m → m ≤ K → K < m + fuel →
      renameWhile fs dest fuel (dupCandidate dest m) (m + 1) =
        some (dupCandidate dest K) := by
  intro fuel
  induction fuel with
  | zero => intro m h1 h2 h3; omega
  | succ f ih =>
    intro m h1 h2 h3
    by_cases hm : m = K
    · subst hm
      simp [renameWhile, hfree]
    · have hlt : m < K := by omega
      have hex := hmin m h1 hlt
      simp only [renameWhile, if_pos hex]
      exact ih (m + 1) (by omega) (by omega) (by omega)

/-- C3: under the Rename policy on an existing destination, the loop
terminates and returns the candidate with the suffixed counter for the
smallest index at least one whose path does not exist; in particular with
photo.jpg and photo_1.jpg both existing it returns photo_2.jpg. -/
theorem C3_rename_terminates_first_free :
    (∀ cfg fs src dest, fs.existsP dest → cfg.handle_duplicates = some "rename" →
      ∃ k, 1 ≤ k ∧ ¬ fs.existsP (dupCandidate dest k) ∧
        (∀ j, 1 ≤ j → j < k → fs.existsP (dupCandidate dest j)) ∧
        handle_duplicate cfg fs src dest = some (dupCandidate dest k)) ∧
    handle_duplicate cfgImages fsDup ["dl", "photo.jpg"] ["d", "photo.jpg"] =
      some ["d", "photo_2.jpg"] := by
  constructor
  · intro cfg fs src dest hex hpol
    obtain ⟨k0, hk01, hk0le, hk0free⟩ := exists_free_candidate fs dest
    have hfe : ∃ k, 1 ≤ k ∧ ¬ fs.existsP (dupCandidate dest k) := ⟨k0, hk01, hk0free⟩
    refine ⟨Nat.find hfe, (Nat.find_spec hfe).1, (Nat.find_spec hfe).2, ?_, ?_⟩
    · intro j hj1 hjlt
      have := Nat.find_min hfe hjlt
      by_contra hj
      exact this ⟨hj1, hj⟩
    · have hbound : Nat.find hfe ≤ fs.files.length + fs.dirs.length + 1 :=
        le_trans (Nat.find_min' hfe ⟨hk01, hk0free⟩) hk0le
      have hmin : ∀ j, 1 ≤ j → j < Nat.find hfe → fs.existsP (dupCandidate dest j) := by
        intro j hj1 hjlt
        have := Nat.find_min hfe hjlt
        by_contra hj
        exact this ⟨hj1, hj⟩
      simp only [handle_duplicate, if_neg (not_not_intro hex), hpol, Option.getD_some]
      rw [if_neg (by decide), if_neg (by decide)]
      show renameWhile fs dest (renameFuel fs) dest 1 = _
      have hfuel : renameFuel fs = (fs.files.length + fs.dirs.length + 1) + 1 := rfl
      rw [hfuel]
      simp only [renameWhile, if_pos hex]
      exact renameWhile_reaches fs dest (Nat.find hfe) (Nat.find_spec hfe).1
        (Nat.find_spec hfe).2 hmin (fs.files.length + fs.dirs.length + 1) 1
        (by omega) (Nat.find_spec hfe).1 (by omega)
  · decide

/-- Witness for C3 at the photo.jpg example. -/
theorem C3_witness :
    ∃ k, 1 ≤ k ∧ ¬ fsDup.existsP (dupCandidate ["d", "photo.jpg"] k) ∧
      (∀ j, 1 ≤ j → j < k → fsDup.existsP (dupCandidate ["d", "photo.jpg"] j)) ∧
      handle_duplicate cfgImages fsDup ["dl", "photo.jpg"] ["d", "photo.jpg"] =
        some (dupCandidate ["d", "photo.jpg"] k) :=
  C3_rename_terminates_first_free.1 cfgImages fsDup ["dl", "photo.jpg"]
    ["d", "photo.jpg"] (by decide) rfl

/-- C9: a destination that does not exist is returned unchanged under any
policy; on an existing destination the skip policy returns no path and the
overwrite policy returns the destination unchanged. -/
theorem C9_non_rename_cases : ∀ cfg fs src dest,
    (¬ fs.existsP dest → handle_duplicate cfg fs src dest = some dest) ∧
    (fs.existsP dest → cfg.handle_duplicates = some "skip" →
      handle_duplicate cfg fs src dest = none) ∧
    (fs.existsP dest → cfg.handle_duplicates = some "overwrite" →
      handle_duplicate cfg fs src dest = some dest) := by
  intro cfg fs src dest
  refine ⟨fun h => ?_, fun hex hpol => ?_, fun hex hpol => ?_⟩
  · simp [handle_duplicate, h]
  · simp [handle_duplicate, hex, hpol]
  · simp [handle_duplicate, hex, hpol]

/-- Witness for C9 at the skip policy on an existing destination. -/
theorem C9_witness :
    handle_duplicate cfgSkip fsDup ["dl", "x.jpg"] ["d", "photo.jpg"] = none :=
  (C9_non_rename_cases cfgSkip fsDup ["dl", "x.jpg"] ["d", "photo.jpg"]).2.1
    (by decide) rfl

/-- C10: any configured duplicates value that is neither skip nor overwrite,
including a missing key, behaves exactly as the rename policy. -/
theorem C10_unrecognized_policy_renames : ∀ cfg fs src dest, fs.existsP dest →
    cfg.handle_duplicates.getD "rename" ≠ "skip" →
    cfg.handle_duplicates.getD "rename" ≠ "overwrite" →
    handle_duplicate cfg fs src dest =
      handle_duplicate { cfg with handle_duplicates := some "rename" } fs src dest := by
  intro cfg fs src dest hex h1 h2
  simp [handle_duplicate, hex, h1, h2]

/-- Witness for C10 at a configuration with no handle_duplicates key. -/
theorem C10_witness :
    handle_duplicate cfgNoPolicy fsDup ["dl", "x.jpg"] ["d", "photo.jpg"] =
      handle_duplicate { cfgNoPolicy with handle_duplicates := some "rename" } fsDup
        ["dl", "x.jpg"] ["d", "photo.jpg"] :=
  C10_unrecognized_policy_renames cfgNoPolicy fsDup ["dl", "x.jpg"] ["d", "photo.jpg"]
    (by decide) (by decide) (by decide)

/-! ### Readiness detector -/

theorem readyLoop_step_timeout (obs : Nat → Option Nat) (period interval maxWait : ℚ)
    (fuel i : Nat) (last : Int) (stable total : ℚ) (ht : ¬ total < maxWait) :
    readyLoop obs period interval maxWait (fuel + 1) i last stable total = none := by
  simp [readyLoop, ht]

theorem readyLoop_step_gone (obs : Nat → Option Nat) (period interval maxWait : ℚ)
    (fuel i : Nat) (last : Int) (stable total : ℚ) (ht : total < maxWait)
    (ho : obs (i + 1) = none) :
    readyLoop obs period interval maxWait (fuel + 1) i last stable total = none := by
  simp [readyLoop, ht, ho]

theorem readyLoop_step_changed (obs : Nat → Option Nat) (period interval maxWait : ℚ)
    (fuel i : Nat) (last : Int) (stable total : ℚ) (sz : Nat) (ht : total < maxWait)
    (ho : obs (i + 1) = some sz) (hne : (sz : Int) ≠ last) :
    readyLoop obs period interval maxWait (fuel + 1) i last stable total =
      readyLoop obs period interval maxWait fuel (i + 1) (sz : Int) 0
        (total + interval) := by
  simp [readyLoop, ht, ho, hne]

theorem readyLoop_step_stable (obs : Nat → Option Nat) (period interval maxWait : ℚ)
    (fuel i : Nat) (last : Int) (stable total : ℚ) (sz : Nat) (ht : total < maxWait)
    (ho : obs (i + 1) = some sz) (heq : (sz : Int) = last)
    (hlt : ¬ period ≤ stable + interval) :
    readyLoop obs period interval maxWait (fuel + 1) i last stable total =
      readyLoop obs period interval maxWait fuel (i + 1) last (stable + interval)
        (total + interval) := by
  simp [readyLoop, ht, ho, heq, hlt]

theorem readyLoop_step_ready (obs : Nat → Option Nat) (period interval maxWait : ℚ)
    (fuel i : Nat) (last : Int) (stable total : ℚ) (sz : Nat) (ht : total < maxWait)
    (ho : obs (i + 1) = some sz) (heq : (sz : Int) = last)
    (hge : period ≤ stable + interval) :
    readyLoop obs period interval maxWait (fuel + 1) i last stable total = some i := by
  simp [readyLoop, ht, ho, heq, hge]

theorem readyLoop_some_spec (obs : Nat → Option Nat) : ∀ fuel i (last : Int)
    (stable total : ℚ), last = lastBefore obs i → stable = stableBefore obs i →
    total = (i : ℚ) * (1/2) → ∀ n,
    readyLoop obs 2 (1/2) 30 fuel i last stable total = some n →
    i ≤ n ∧ n ≤ 59 ∧ 2 ≤ stableBefore obs (n + 1) ∧
      ∀ j, i ≤ j → j ≤ n → (obs (j + 1)).isSome := by
  intro fuel
  induction fuel with
  | zero => intro i last stable total _ _ _ n h; simp [readyLoop] at h
  | succ f ih =>
    intro i last stable total hlast hstable htotal n h
    by_cases ht : total < 30
    case neg =>
      rw [readyLoop_step_timeout obs 2 (1/2) 30 f i last stable total ht] at h
      cases h
    have hi59 : i ≤ 59 := by
      rw [htotal] at ht
      have hq : (i : ℚ) < 60 := by linarith
      have : i < 60 := by exact_mod_cast hq
      omega
    rcases ho : obs (i + 1) with _ | sz
    · rw [readyLoop_step_gone obs 2 (1/2) 30 f i last stable total ht ho] at h
      cases h
    · have hlastSucc : lastBefore obs (i + 1) = (sz : Int) := by
        simp [lastBefore, ho]
      by_cases heq : (sz : Int) = last
      · by_cases hge : (2 : ℚ) ≤ stable + 1/2
        · rw [readyLoop_step_ready obs 2 (1/2) 30 f i last stable total sz ht ho heq
            hge] at h
          obtain rfl : i = n := Option.some.inj h
          have hstableSucc : stableBefore obs (i + 1) = stableBefore obs i + 1/2 := by
            rw [stableBefore, if_pos]
            rw [hlastSucc, heq, hlast]
          refine ⟨le_refl i, hi59, ?_, ?_⟩
          · rw [hstableSucc, ← hstable]; exact hge
          · intro j hj1 hj2
            obtain rfl : j = i := le_antisymm hj2 hj1
            simp [ho]
        · rw [readyLoop_step_stable obs 2 (1/2) 30 f i last stable total sz ht ho heq
            hge] at h
          have hstableSucc : stableBefore obs (i + 1) = stableBefore obs i + 1/2 := by
            rw [stableBefore, if_pos]
            rw [hlastSucc, heq, hlast]
          obtain ⟨h1, h2, h3, h4⟩ := ih (i + 1) last (stable + 1/2)
            (total + 1/2) (by rw [hlast, hlastSucc, heq, hlast])
            (by rw [hstable, hstableSucc]) (by rw [htotal]; push_cast; ring) n h
          refine ⟨by omega, h2, h3, ?_⟩
          intro j hj1 hj2
          rcases Nat.eq_or_lt_of_le hj1 with rfl | hlt
          · simp [ho]
          · exact h4 j (by omega) hj2
      · rw [readyLoop_step_changed obs 2 (1/2) 30 f i last stable total sz ht ho
          heq] at h
        have hstableSucc : stableBefore obs (i + 1) = 0 := by
          rw [stableBefore, if_neg]
          rw [hlastSucc, ← hlast]
          exact heq
        obtain ⟨h1, h2, h3, h4⟩ := ih (i + 1) (sz : Int) 0 (total + 1/2)
          hlastSucc.symm hstableSucc.symm (by rw [htotal]; push_cast; ring) n h
        refine ⟨by omega, h2, h3, ?_⟩
        intro j hj1 hj2
        rcases Nat.eq_or_lt_of_le hj1 with rfl | hlt
        · simp [ho]
        · exact h4 j (by omega) hj2

theorem readyIdx_some_spec (obs : Nat → Option Nat) (n : Nat)
    (h : readyIdx obs = some n) :
    n ≤ 59 ∧ 2 ≤ stableBefore obs (n + 1) ∧ ∀ j, j ≤ n + 1 → (obs j).isSome := by
  unfold readyIdx at h
  by_cases h0 : (obs 0).isSome
  · rw [if_pos h0] at h
    have h' : readyLoop obs 2 (1/2) 30 61 0 (lastBefore obs 0) (stableBefore obs 0)
        ((0 : ℚ) * (1/2)) = some n := by
      have e : ((0 : ℚ) * (1/2)) = 0 := by norm_num
      rw [e]
      exact h
    obtain ⟨_, h2, h3, h4⟩ := readyLoop_some_spec obs 61 0 (lastBefore obs 0)
      (stableBefore obs 0) ((0 : ℚ) * (1/2)) rfl rfl (by norm_num) n h'
    refine ⟨h2, h3, ?_⟩
    intro j hj
    cases j with
    | zero => exact h0
    | succ jj => exact h4 jj (Nat.zero_le _) (by omega)
  · rw [if_neg h0] at h
    cases h

/-- C4: the readiness detector returns false when the file does not exist at
the start of the check, false when the window elapses without the stability
counter reaching the threshold, and false when the file disappears during a
poll that the loop reaches. -/
theorem C4_ready_false_cases : ∀ obs : Nat → Option Nat,
    (obs 0 = none → is_file_ready obs = false) ∧
    ((∀ j, j ≤ 59 → stableBefore obs (j + 1) < 2) → is_file_ready obs = false) ∧
    (∀ i, i ≤ 59 → obs (i + 1) = none →
      (∀ j, j < i → stableBefore obs (j + 1) < 2) → is_file_ready obs = false) := by
  intro obs
  refine ⟨fun h0 => ?_, fun hnever => ?_, fun i hi hnone hbefore => ?_⟩
  · simp [is_file_ready, readyIdx, h0]
  · unfold is_file_ready
    cases hr : readyIdx obs with
    | none => rfl
    | some n =>
      obtain ⟨h1, h2, _⟩ := readyIdx_some_spec obs n hr
      exact absurd h2 (not_le.mpr (hnever n h1))
  · unfold is_file_ready
    cases hr : readyIdx obs with
    | none => rfl
    | some n =>
      obtain ⟨h1, h2, h3⟩ := readyIdx_some_spec obs n hr
      have hni : ¬ n < i := fun hlt => absurd h2 (not_le.mpr (hbefore n hlt))
      have hsome : (obs (i + 1)).isSome := h3 (i + 1) (by omega)
      rw [hnone] at hsome
      cases hsome

/-- Witness for C4: a file that never exists is never ready. -/
theorem C4_witness : is_file_ready (fun _ => none) = false :=
  (C4_ready_false_cases (fun _ => none)).1 rfl

/-- C8: a file whose size grows over three polls at half second intervals and
is then stable is judged ready at poll six, exactly two seconds after poll
two where the growth stopped and within one poll interval of that bound; and
the stability counter resets to zero whenever the observed size changes from
the previous poll, increments by one poll interval otherwise, and the loop
returns as soon as the incremented counter reaches the threshold. -/
theorem C8_growth_then_stable : ∀ a b c : Nat, a < b → b < c →
    (readyIdx (fun j => some (if j ≤ 1 then a else if j = 2 then b else c)) =
        some 6 ∧
      (2 : ℚ) * (1/2) + 2 ≤ 6 * (1/2) ∧ (6 : ℚ) * (1/2) ≤ 2 * (1/2) + 2 + 1/2) ∧
    (∀ obs fuel i (last : Int) (stable total : ℚ) (sz : Nat), total < 30 →
      obs (i + 1) = some sz → (sz : Int) ≠ last →
      readyLoop obs 2 (1/2) 30 (fuel + 1) i last stable total =
        readyLoop obs 2 (1/2) 30 fuel (i + 1) (sz : Int) 0 (total + 1/2)) ∧
    (∀ obs fuel i (last : Int) (stable total : ℚ) (sz : Nat), total < 30 →
      obs (i + 1) = some sz → (sz : Int) = last → ¬ (2 : ℚ) ≤ stable + 1/2 →
      readyLoop obs 2 (1/2) 30 (fuel + 1) i last stable total =
        readyLoop obs 2 (1/2) 30 fuel (i + 1) last (stable + 1/2) (total + 1/2)) ∧
    (∀ obs fuel i (last : Int) (stable total : ℚ) (sz : Nat), total < 30 →
      obs (i + 1) = some sz → (sz : Int) = last → (2 : ℚ) ≤ stable + 1/2 →
      readyLoop obs 2 (1/2) 30 (fuel + 1) i last stable total = some i) := by
  intro a b c hab hbc
  refine ⟨⟨?_, by norm_num, by norm_num⟩,
    fun obs fuel i last stable total sz ht ho hne =>
      readyLoop_step_changed obs 2 (1/2) 30 fuel i last stable total sz ht ho hne,
    fun obs fuel i last stable total sz ht ho heq hlt =>
      readyLoop_step_stable obs 2 (1/2) 30 fuel i last stable total sz ht ho heq hlt,
    fun obs fuel i last stable total sz ht ho heq hge =>
      readyLoop_step_ready obs 2 (1/2) 30 fuel i last stable total sz ht ho heq hge⟩
  set g : Nat → Option Nat := fun j => some (if j ≤ 1 then a else if j = 2 then b else c)
    with hg
  have hg1 : g 1 = some a := by simp [hg]
  have hg2 : g 2 = some b := by norm_num [hg]
  have hg3 : g 3 = some c := by norm_num [hg]
  have hg4 : g 4 = some c := by norm_num [hg]
  have hg5 : g 5 = some c := by norm_num [hg]
  have hg6 : g 6 = some c := by norm_num [hg]
  have hg7 : g 7 = some c := by norm_num [hg]
  have e1 : readyLoop g 2 (1/2) 30 61 0 (-1) 0 0 =
      readyLoop g 2 (1/2) 30 60 1 (a : Int) 0 (0 + 1/2) :=
    readyLoop_step_changed g 2 (1/2) 30 60 0 (-1) 0 0 a (by norm_num) hg1 (by omega)
  have e2 : readyLoop g 2 (1/2) 30 60 1 (a : Int) 0 (0 + 1/2) =
      readyLoop g 2 (1/2) 30 59 2 (b : Int) 0 (0 + 1/2 + 1/2) :=
    readyLoop_step_changed g 2 (1/2) 30 59 1 (a : Int) 0 (0 + 1/2) b (by norm_num)
      hg2 (by omega)
  have e3 : readyLoop g 2 (1/2) 30 59 2 (b : Int) 0 (0 + 1/2 + 1/2) =
      readyLoop g 2 (1/2) 30 58 3 (c : Int) 0 (0 + 1/2 + 1/2 + 1/2) :=
    readyLoop_step_changed g 2 (1/2) 30 58 2 (b : Int) 0 (0 + 1/2 + 1/2) c
      (by norm_num) hg3 (by omega)
  have e4 : readyLoop g 2 (1/2) 30 58 3 (c : Int) 0 (0 + 1/2 + 1/2 + 1/2) =
      readyLoop g 2 (1/2) 30 57 4 (c : Int) (0 + 1/2) (0 + 1/2 + 1/2 + 1/2 + 1/2) :=
    readyLoop_step_stable g 2 (1/2) 30 57 3 (c : Int) 0 (0 + 1/2 + 1/2 + 1/2) c
      (by norm_num) hg4 rfl (by norm_num)
  have e5 : readyLoop g 2 (1/2) 30 57 4 (c : Int) (0 + 1/2)
        (0 + 1/2 + 1/2 + 1/2 + 1/2) =
      readyLoop g 2 (1/2) 30 56 5 (c : Int) (0 + 1/2 + 1/2)
        (0 + 1/2 + 1/2 + 1/2 + 1/2 + 1/2) :=
    readyLoop_step_stable g 2 (1/2) 30 56 4 (c : Int) (0 + 1/2)
      (0 + 1/2 + 1/2 + 1/2 + 1/2) c (by norm_num) hg5 rfl (by norm_num)
  have e6 : readyLoop g 2 (1/2) 30 56 5 (c : Int) (0 + 1/2 + 1/2)
        (0 + 1/2 + 1/2 + 1/2 + 1/2 + 1/2) =
      readyLoop g 2 (1/2) 30 55 6 (c : Int) (0 + 1/2 + 1/2 + 1/2)
        (0 + 1/2 + 1/2 + 1/2 + 1/2 + 1/2 + 1/2) :=
    readyLoop_step_stable g 2 (1/2) 30 55 5 (c : Int) (0 + 1/2 + 1/2)
      (0 + 1/2 + 1/2 + 1/2 + 1/2 + 1/2) c (by norm_num) hg6 rfl (by norm_num)
  have e7 : readyLoop g 2 (1/2) 30 55 6 (c : Int) (0 + 1/2 + 1/2 + 1/2)
        (0 + 1/2 + 1/2 + 1/2 + 1/2 + 1/2 + 1/2) = some 6 :=
    readyLoop_step_ready g 2 (1/2) 30 54 6 (c : Int) (0 + 1/2 + 1/2 + 1/2)
      (0 + 1/2 + 1/2 + 1/2 + 1/2 + 1/2 + 1/2) c (by norm_num) hg7 rfl (by norm_num)
  have hstart : readyIdx g = readyLoop g 2 (1/2) 30 61 0 (-1) 0 0 := by
    unfold readyIdx
    rw [if_pos (by simp [hg])]
  rw [hstart, e1, e2, e3, e4, e5, e6, e7]

/-- Witness for C8 at sizes zero, one, two. -/
theorem C8_witness :
    readyIdx (fun j => some (if j ≤ 1 then 0 else if j = 2 then 1 else 2)) = some 6 :=
  (C8_growth_then_stable 0 1 2 (by decide) (by decide)).1.1

/-! ### Categorizer -/

theorem firstMatch_eq_specRuleScan (ext : String) :
    ∀ l : List (String × CategoryInfo), firstMatch ext l = specRuleScan ext l := by
  intro l
  induction l with
  | nil => rfl
  | cons ci rest ih =>
    by_cases h : ci.2.enabled = true ∧ ext ∈ ci.2.extensions
    · simp [firstMatch, specRuleScan, h]
    · simp [firstMatch, specRuleScan, h, ih]

theorem specRuleScan_empty_none_iff :
    ∀ l : List (String × CategoryInfo),
      (∀ ci ∈ l, ci.2.enabled = true → "" ∉ ci.2.extensions) ↔
        specRuleScan "" l = none := by
  intro l
  induction l with
  | nil => simp [specRuleScan]
  | cons ci rest ih =>
    constructor
    · intro hall
      have hcond : ¬ (ci.2.enabled = true ∧ ("" : String) ∈ ci.2.extensions) := by
        rintro ⟨he, hm⟩
        exact hall ci (List.mem_cons_self ci rest) he hm
      rw [specRuleScan, if_neg hcond]
      exact ih.mp (fun d hd => hall d (List.mem_cons_of_mem ci hd))
    · intro hnone
      by_cases hcond : ci.2.enabled = true ∧ ("" : String) ∈ ci.2.extensions
      · rw [specRuleScan, if_pos hcond] at hnone
        cases hnone
      · rw [specRuleScan, if_neg hcond] at hnone
        intro d hd he
        rcases List.mem_cons.mp hd with rfl | hdrest
        · intro hm
          exact hcond ⟨he, hm⟩
        · exact ih.mpr hnone d hdrest he

/-- Counterexample for C2: with a rule whose extension set contains the empty
string, a file with no extension is classified into that rule rather than
into Others, so the reference clause sending every extensionless file to
Others does not hold of the code. -/
theorem C2_cex : pyExt (fname ["dl", "file"]) = "" ∧
    get_file_category c2CexCfg ["dl", "file"] = "X" ∧
    classifySpec c2CexCfg ["dl", "file"] = "Others" := by
  refine ⟨by decide, by decide, by decide⟩

/-- C2 amended: for every configuration and path the categorizer equals the
first-enabled-match reference with the Others fallback; it equals the full
spec reference, extensionless clause included, whenever the file has an
extension; and an extensionless file yields the empty extension, which no
enabled rule matches exactly when no enabled rule lists the empty string, in
which case the result is Others. -/
theorem C2_classify_amended :
    (∀ cfg p, get_file_category cfg p =
        match specRuleScan (pyExt (fname p)) cfg.categories with
        | some nm => nm
        | none => "Others") ∧
    (∀ cfg p, pyExt (fname p) ≠ "" →
        get_file_category cfg p = classifySpec cfg p) ∧
    (∀ cfg : Config,
        (∀ ci ∈ cfg.categories, ci.2.enabled = true → "" ∉ ci.2.extensions) ↔
          specRuleScan "" cfg.categories = none) ∧
    (∀ cfg p, pyExt (fname p) = "" →
        (∀ ci ∈ cfg.categories, ci.2.enabled = true → "" ∉ ci.2.extensions) →
        get_file_category cfg p = "Others") := by
  have href : ∀ cfg p, get_file_category cfg p =
      match specRuleScan (pyExt (fname p)) cfg.categories with
      | some nm => nm
      | none => "Others" := by
    intro cfg p
    unfold get_file_category
    rw [firstMatch_eq_specRuleScan]
    cases specRuleScan (pyExt (fname p)) cfg.categories with
    | none => rfl
    | some nm => rfl
  refine ⟨href, ?_, fun cfg => specRuleScan_empty_none_iff cfg.categories, ?_⟩
  · intro cfg p hx
    rw [href cfg p]
    unfold classifySpec
    dsimp only
    rw [if_neg hx]
  · intro cfg p hx hall
    rw [href cfg p, hx, (specRuleScan_empty_none_iff cfg.categories).mp hall]

/-- Witness for C2: an extensionless file under a configuration whose only
rule listing the empty extension is disabled falls back to Others. -/
theorem C2_witness : get_file_category c2DisCfg ["dl", "file"] = "Others" :=
  C2_classify_amended.2.2.2 c2DisCfg ["dl", "file"] (by decide) (by decide)

/-! ### Destination resolver -/

theorem mem_mkdirp_self (fs : FS) (d : FPath) : d ∈ (fs.mkdirp d).dirs := by
  unfold FS.mkdirp
  by_cases h : d ∈ fs.dirs
  · simp only [if_pos h]
    exact h
  · simp [h]

theorem gdp_cases (cfg : Config) (fs : FS) (p : FPath) (cat : String) :
    get_destination_path cfg fs p cat = (none, fs) ∨
      (get_destination_path cfg fs p cat).1 ≠ none := by
  unfold get_destination_path
  cases hfind : findCat cat cfg.categories with
  | none => right; simp
  | some info =>
    cases hfp : info.folder_path with
    | none => left; simp [hfp]
    | some f => right; simp [hfp]

theorem gdp_none_eq (cfg : Config) (fs : FS) (p : FPath) (cat : String)
    (h : (get_destination_path cfg fs p cat).1 = none) :
    get_destination_path cfg fs p cat = (none, fs) := by
  rcases gdp_cases cfg fs p cat with he | hne
  · exact he
  · exact absurd h hne

/-- Counterexample for C6: a configuration that lists the reserved category
Others with a falsy folder yields no destination for the Others category, so
a None result is not restricted to non-Others categories and the Others
fallback is not unconditional. -/
theorem C6_cex :
    (get_destination_path c6CexCfg fsPhoto ["dl", "x.jpg"] "Others").1 = none := by
  decide

/-- Evaluation helper: the constant size observation stream is judged ready
at poll four. -/
theorem readyIdx_obsStable : readyIdx obsStable = some 4 := by
  have e1 : readyLoop obsStable 2 (1/2) 30 61 0 (-1) 0 0 =
      readyLoop obsStable 2 (1/2) 30 60 1 ((5 : Nat) : Int) 0 (0 + 1/2) :=
    readyLoop_step_changed obsStable 2 (1/2) 30 60 0 (-1) 0 0 5 (by norm_num) rfl
      (by omega)
  have e2 : readyLoop obsStable 2 (1/2) 30 60 1 ((5 : Nat) : Int) 0 (0 + 1/2) =
      readyLoop obsStable 2 (1/2) 30 59 2 ((5 : Nat) : Int) (0 + 1/2)
        (0 + 1/2 + 1/2) :=
    readyLoop_step_stable obsStable 2 (1/2) 30 59 1 ((5 : Nat) : Int) 0 (0 + 1/2) 5
      (by norm_num) rfl rfl (by norm_num)
  have e3 : readyLoop obsStable 2 (1/2) 30 59 2 ((5 : Nat) : Int) (0 + 1/2)
        (0 + 1/2 + 1/2) =
      readyLoop obsStable 2 (1/2) 30 58 3 ((5 : Nat) : Int) (0 + 1/2 + 1/2)
        (0 + 1/2 + 1/2 + 1/2) :=
    readyLoop_step_stable obsStable 2 (1/2) 30 58 2 ((5 : Nat) : Int) (0 + 1/2)
      (0 + 1/2 + 1/2) 5 (by norm_num) rfl rfl (by norm_num)
  have e4 : readyLoop obsStable 2 (1/2) 30 58 3 ((5 : Nat) : Int) (0 + 1/2 + 1/2)
        (0 + 1/2 + 1/2 + 1/2) =
      readyLoop obsStable 2 (1/2) 30 57 4 ((5 : Nat) : Int) (0 + 1/2 + 1/2 + 1/2)
        (0 + 1/2 + 1/2 + 1/2 + 1/2) :=
    readyLoop_step_stable obsStable 2 (1/2) 30 57 3 ((5 : Nat) : Int)
      (0 + 1/2 + 1/2) (0 + 1/2 + 1/2 + 1/2) 5 (by norm_num) rfl rfl (by norm_num)
  have e5 : readyLoop obsStable 2 (1/2) 30 57 4 ((5 : Nat) : Int)
        (0 + 1/2 + 1/2 + 1/2) (0 + 1/2 + 1/2 + 1/2 + 1/2) = some 4 :=
    readyLoop_step_ready obsStable 2 (1/2) 30 56 4 ((5 : Nat) : Int)
      (0 + 1/2 + 1/2 + 1/2) (0 + 1/2 + 1/2 + 1/2 + 1/2) 5 (by norm_num) rfl rfl
      (by norm_num)
  have hstart : readyIdx obsStable = readyLoop obsStable 2 (1/2) 30 61 0 (-1) 0 0 := by
    unfold readyIdx
    rw [if_pos (show (obsStable 0).isSome = true from rfl)]
  rw [hstart, e1, e2, e3, e4, e5]

theorem ready_obsStable : is_file_ready obsStable = true := by
  rw [is_file_ready, readyIdx_obsStable]
  rfl

/-- C6 amended: the resolver yields no destination exactly when the category
is present in the configuration with a falsy folder, the reserved Others
included when it is explicitly configured; any category absent from the
configuration falls back to the Others folder under the downloads folder,
created if missing; and a None result is surfaced by the orchestrator as a
skipped outcome with the filesystem unchanged. -/
theorem C6_resolver_amended :
    (∀ cfg fs p cat, (get_destination_path cfg fs p cat).1 = none ↔
      ∃ info, findCat cat cfg.categories = some info ∧ info.folder_path = none) ∧
    (∀ cfg fs p cat, findCat cat cfg.categories = none →
      (get_destination_path cfg fs p cat).1 =
          some ((cfg.downloads_folder ++ ["Others"]) ++ [fname p]) ∧
        (cfg.downloads_folder ++ ["Others"]) ∈
          (get_destination_path cfg fs p cat).2.dirs) ∧
    (∀ cfg fs obs moveOk p, fs.existsP p →
      ¬ (pyStartsWith (fname p) "." = true ∨ pyEndsWith (fname p) ".tmp" = true
        ∨ fs.isDirP p) →
      parentOf p = cfg.downloads_folder → is_file_ready obs = true →
      (get_destination_path cfg fs p (get_file_category cfg p)).1 = none →
      organize_file cfg fs obs moveOk p = (.skipped p "no destination folder", fs)) := by
  refine ⟨?_, ?_, ?_⟩
  · intro cfg fs p cat
    unfold get_destination_path
    cases hfind : findCat cat cfg.categories with
    | none => simp [hfind]
    | some info =>
      cases hfp : info.folder_path with
      | none => simp [hfp]
      | some f => simp [hfp]
  · intro cfg fs p cat hfind
    unfold get_destination_path
    rw [hfind]
    exact ⟨rfl, mem_mkdirp_self _ _⟩
  · intro cfg fs obs moveOk p hex hnothid hparent hready hnone
    have hsplit := gdp_none_eq cfg fs p (get_file_category cfg p) hnone
    unfold organize_file organize_body
    rw [if_neg (not_not_intro hex), if_neg hnothid,
      if_neg (not_not_intro hparent), if_neg (by rw [hready]; exact fun hc => by cases hc)]
    simp only [hsplit]

/-- Witness for C6: a configured category with no folder is surfaced as a
skipped outcome by the orchestrator. -/
theorem C6_witness : organize_file c6GapCfg fsPhoto obsStable true ["dl", "photo.jpg"] =
    (.skipped ["dl", "photo.jpg"] "no destination folder", fsPhoto) :=
  C6_resolver_amended.2.2 c6GapCfg fsPhoto obsStable true ["dl", "photo.jpg"]
    (by decide) (by decide) (by decide) ready_obsStable (by decide)

/-! ### Orchestrator -/

theorem parentOf_append_singleton (l : List String) (a : String) :
    parentOf (l ++ [a]) = l := by
  simp [parentOf]

theorem renameWhile_shape (fs : FS) (orig : FPath) : ∀ fuel cur k (q : FPath),
    renameWhile fs orig fuel cur k = some q →
    q = cur ∨ ∃ m, q = dupCandidate orig m := by
  intro fuel
  induction fuel with
  | zero => intro cur k q h; cases h
  | succ f ih =>
    intro cur k q h
    by_cases hex : fs.existsP cur
    · rw [renameWhile, if_pos hex] at h
      rcases ih (dupCandidate orig k) (k + 1) q h with he | hm
      · exact Or.inr ⟨k, he⟩
      · exact Or.inr hm
    · rw [renameWhile, if_neg hex] at h
      exact Or.inl (Option.some.inj h).symm

theorem handle_duplicate_parent (cfg : Config) (fs : FS) (src dest q : FPath)
    (h : handle_duplicate cfg fs src dest = some q) :
    parentOf q = parentOf dest := by
  unfold handle_duplicate at h
  by_cases hex : fs.existsP dest
  · rw [if_neg (not_not_intro hex)] at h
    by_cases hskip : cfg.handle_duplicates.getD "rename" = "skip"
    · rw [if_pos hskip] at h
      cases h
    · rw [if_neg hskip] at h
      by_cases hover : cfg.handle_duplicates.getD "rename" = "overwrite"
      · rw [if_pos hover] at h
        rw [← Option.some.inj h]
      · rw [if_neg hover] at h
        rcases renameWhile_shape fs dest (renameFuel fs) dest 1 q h with he | ⟨m, hm⟩
        · rw [he]
        · rw [hm]
          unfold dupCandidate
          exact parentOf_append_singleton _ _
  · rw [if_pos hex] at h
    rw [← Option.some.inj h]

theorem gdp_files (cfg : Config) (fs : FS) (p : FPath) (cat : String) :
    (get_destination_path cfg fs p cat).2.files = fs.files := by
  unfold get_destination_path
  cases hfind : findCat cat cfg.categories with
  | none => simp [FS.mkdirp]
  | some info =>
    cases hfp : info.folder_path with
    | none => simp [hfp]
    | some f => simp [hfp, FS.mkdirp]

theorem organize_total (cfg : Config) (fs : FS) (obs : Nat → Option Nat)
    (moveOk : Bool) (p : FPath) :
    (∃ r fs2, organize_file cfg fs obs moveOk p = (.skipped p r, fs2)) ∨
    (∃ dst cat fs2, organize_file cfg fs obs moveOk p = (.moved p dst cat, fs2)) ∨
    (∃ e fs2, organize_file cfg fs obs moveOk p = (.failed p e, fs2)) := by
  unfold organize_file organize_body
  by_cases h1 : ¬ fs.existsP p
  · rw [if_pos h1]; left; exact ⟨_, _, rfl⟩
  rw [if_neg h1]
  by_cases h2 : pyStartsWith (fname p) "." = true ∨ pyEndsWith (fname p) ".tmp" = true
      ∨ fs.isDirP p
  · rw [if_pos h2]; left; exact ⟨_, _, rfl⟩
  rw [if_neg h2]
  by_cases h3 : ¬ parentOf p = cfg.downloads_folder
  · rw [if_pos h3]; left; exact ⟨_, _, rfl⟩
  rw [if_neg h3]
  by_cases h4 : is_file_ready obs = false
  · rw [if_pos h4]; left; exact ⟨_, _, rfl⟩
  rw [if_neg h4]
  dsimp only
  rcases hdp : get_destination_path cfg fs p (get_file_category cfg p) with ⟨d, fs1⟩
  cases d with
  | none => left; exact ⟨_, _, rfl⟩
  | some dest =>
    dsimp only
    by_cases h5 : parentOf p = parentOf dest
    · rw [if_pos h5]; left; exact ⟨_, _, rfl⟩
    rw [if_neg h5]
    rcases hhd : handle_duplicate cfg fs1 p dest with _ | fd
    · left; exact ⟨_, _, rfl⟩
    · dsimp only
      by_cases h6 : moveOk = true
      · rw [if_pos h6]; right; left; exact ⟨_, _, _, rfl⟩
      · rw [if_neg h6]; right; right; exact ⟨_, _, rfl⟩

theorem organize_moved_inv (cfg : Config) (fs : FS) (obs : Nat → Option Nat)
    (moveOk : Bool) (p dst : FPath) (cat : String) (fs2 : FS)
    (h : organize_file cfg fs obs moveOk p = (.moved p dst cat, fs2)) :
    ∃ dest fs1,
      get_destination_path cfg fs p (get_file_category cfg p) = (some dest, fs1) ∧
      parentOf p ≠ parentOf dest ∧ handle_duplicate cfg fs1 p dest = some dst ∧
      fs2 = fs1.move p dst := by
  unfold organize_file organize_body at h
  by_cases h1 : ¬ fs.existsP p
  · rw [if_pos h1] at h; simp at h
  rw [if_neg h1] at h
  by_cases h2 : pyStartsWith (fname p) "." = true ∨ pyEndsWith (fname p) ".tmp" = true
      ∨ fs.isDirP p
  · rw [if_pos h2] at h; simp at h
  rw [if_neg h2] at h
  by_cases h3 : ¬ parentOf p = cfg.downloads_folder
  · rw [if_pos h3] at h; simp at h
  rw [if_neg h3] at h
  by_cases h4 : is_file_ready obs = false
  · rw [if_pos h4] at h; simp at h
  rw [if_neg h4] at h
  dsimp only at h
  rcases hdp : get_destination_path cfg fs p (get_file_category cfg p) with ⟨d, fs1⟩
  rw [hdp] at h
  cases d with
  | none => simp at h
  | some dest =>
    dsimp only at h
    by_cases h5 : parentOf p = parentOf dest
    · rw [if_pos h5] at h; simp at h
    rw [if_neg h5] at h
    rcases hhd : handle_duplicate cfg fs1 p dest with _ | fd
    · rw [hhd] at h; simp at h
    · rw [hhd] at h
      dsimp only at h
      by_cases h6 : moveOk = true
      · rw [if_pos h6] at h
        have hpair : MoveOutcome.moved p fd (get_file_category cfg p) = .moved p dst cat
            ∧ fs1.move p fd = fs2 := by
          constructor
          · exact congrArg Prod.fst h
          · exact congrArg Prod.snd h
        have hfd : fd = dst := by
          cases hpair.1
          rfl
        exact ⟨dest, fs1, rfl, h5, by rw [hhd, hfd], by rw [← hpair.2, hfd]⟩
      · rw [if_neg h6] at h; simp at h

/-- C1: after a run that moved the file away, a second run on the same path
skips with the filesystem unchanged, never failing and never moving again. -/
theorem C1_second_run_skips : ∀ cfg fs obs moveOk p dst cat fs2 obs2 moveOk2,
    organize_file cfg fs obs moveOk p = (.moved p dst cat, fs2) →
    ∃ r, organize_file cfg fs2 obs2 moveOk2 p = (.skipped p r, fs2) := by
  intro cfg fs obs moveOk p dst cat fs2 obs2 moveOk2 h
  obtain ⟨dest, fs1, hdp, hpar, hhd, hfs2⟩ :=
    organize_moved_inv cfg fs obs moveOk p dst cat fs2 h
  have hparq : parentOf dst = parentOf dest :=
    handle_duplicate_parent cfg fs1 p dest dst hhd
  have hne : dst ≠ p := by
    intro he
    exact hpar (by rw [← hparq, he])
  have hnotmem : p ∉ fs2.files := by
    rw [hfs2]
    intro hmem
    rcases List.mem_cons.mp hmem with he | hf
    · exact hne he.symm
    · have hp := (List.mem_filter.mp hf).2
      simp at hp
  by_cases hex2 : fs2.existsP p
  · have hdir : fs2.isDirP p := by
      rcases hex2 with hfi | hdi
      · exact absurd hfi hnotmem
      · exact hdi
    refine ⟨"hidden, temporary or directory", ?_⟩
    unfold organize_file organize_body
    rw [if_neg (not_not_intro hex2), if_pos (Or.inr (Or.inr hdir))]
  · refine ⟨"file not found", ?_⟩
    unfold organize_file organize_body
    rw [if_pos hex2]

/-- Witness for C1: the photo is moved by the first run, and the second run
on the resulting filesystem skips. -/
theorem C1_witness :
    ∃ r, organize_file cfgImages fsMoved obsStable true ["dl", "photo.jpg"] =
      (.skipped ["dl", "photo.jpg"] r, fsMoved) :=
  C1_second_run_skips cfgImages fsPhoto obsStable true ["dl", "photo.jpg"]
    ["dl", "Images", "photo.jpg"] "Images" fsMoved obsStable true
    (by unfold organize_file; rw [ready_obsStable]; rfl)

/-- C5: every orchestrator run resolves to exactly one outcome value about
the given path, and an error raised inside the body is caught and converted
into a failed outcome rather than propagated. -/
theorem C5_total_outcome : ∀ cfg fs obs moveOk p,
    ((∃ dst cat fs2, organize_file cfg fs obs moveOk p = (.moved p dst cat, fs2)) ∨
     (∃ r fs2, organize_file cfg fs obs moveOk p = (.skipped p r, fs2)) ∨
     (∃ e fs2, organize_file cfg fs obs moveOk p = (.failed p e, fs2))) ∧
    (∀ e fs1, organize_body cfg fs (is_file_ready obs) moveOk p = .error (e, fs1) →
      organize_file cfg fs obs moveOk p = (.failed p e, fs1)) := by
  intro cfg fs obs moveOk p
  constructor
  · rcases organize_total cfg fs obs moveOk p with hs | hm | hf
    · exact Or.inr (Or.inl hs)
    · exact Or.inl hm
    · exact Or.inr (Or.inr hf)
  · intro e fs1 hb
    unfold organize_file
    rw [hb]

/-- Witness for C5: a failing move is converted into a failed outcome. -/
theorem C5_witness :
    organize_file cfgImages fsPhoto obsStable false ["dl", "photo.jpg"] =
      (.failed ["dl", "photo.jpg"] "move error", fsErr) :=
  (C5_total_outcome cfgImages fsPhoto obsStable false ["dl", "photo.jpg"]).2
    "move error" fsErr (by rw [ready_obsStable]; rfl)

/-- C7: a file whose parent is not exactly the configured downloads folder is
skipped with the filesystem unchanged, regardless of extension; in particular
every file inside a subfolder of the downloads folder is skipped. -/
theorem C7_scope_guard : ∀ cfg fs obs moveOk,
    (∀ p, parentOf p ≠ cfg.downloads_folder →
      ∃ r, organize_file cfg fs obs moveOk p = (.skipped p r, fs)) ∧
    (∀ d rest nm, ∃ r,
      organize_file cfg fs obs moveOk (cfg.downloads_folder ++ d :: rest ++ [nm]) =
        (.skipped (cfg.downloads_folder ++ d :: rest ++ [nm]) r, fs)) := by
  intro cfg fs obs moveOk
  have hmain : ∀ p, parentOf p ≠ cfg.downloads_folder →
      ∃ r, organize_file cfg fs obs moveOk p = (.skipped p r, fs) := by
    intro p hp
    by_cases h1 : ¬ fs.existsP p
    · exact ⟨"file not found", by unfold organize_file organize_body; rw [if_pos h1]⟩
    by_cases h2 : pyStartsWith (fname p) "." = true ∨ pyEndsWith (fname p) ".tmp" = true
        ∨ fs.isDirP p
    · exact ⟨"hidden, temporary or directory",
        by unfold organize_file organize_body; rw [if_neg h1, if_pos h2]⟩
    · exact ⟨"not in the downloads folder",
        by unfold organize_file organize_body; rw [if_neg h1, if_neg h2, if_pos hp]⟩
  refine ⟨hmain, ?_⟩
  intro d rest nm
  apply hmain
  have he : cfg.downloads_folder ++ d :: rest ++ [nm] =
      (cfg.downloads_folder ++ d :: rest) ++ [nm] := by simp
  rw [he, parentOf_append_singleton]
  intro heq
  have hlen := congrArg List.length heq
  simp at hlen

/-- Witness for C7: a photo inside a subfolder of the downloads folder is
skipped even though its extension matches the Images rule. -/
theorem C7_witness :
    ∃ r, organize_file cfgImages fsSub obsStable true ["dl", "sub", "photo.jpg"] =
      (.skipped ["dl", "sub", "photo.jpg"] r, fsSub) :=
  (C7_scope_guard cfgImages fsSub obsStable true).1 ["dl", "sub", "photo.jpg"]
    (by decide)
